import Mathlib

/-!
Verification of the ZenML Kubernetes orchestrator entrypoint configuration
(`kubernetes_orchestrator_entrypoint_configuration.py`) and of the GCP
artifact store (`gcp_artifact_store.py`) against their natural-language
specification.

The Python code is shallowly embedded: pure functions become Lean
functions, the object-storage backend becomes an explicit state record,
and code that can raise becomes `Except`-valued, paired with the storage
state it leaves behind.
-/

/-! ## Argument Codec

Embedding of `get_fixed_step_args` / `get_step_specific_args`.

The Python loop enumerates every index `i` of `step_args`; whenever the
element at `i` begins with the marker `"--"` it appends the slice
`step_args[i : i + 2]` to the output, provided the option's category
(fixed versus step-specific, judged by membership of the option name in
the volatile list) agrees with the `get_fixed` flag.  The structural
recursion below walks the same suffixes in the same order: at each suffix
`arg :: rest`, the Python slice at that index is `arg :: rest.take 1`.
-/

/-- Modelled from the spec: the three step-specific option names imported
from the external step entrypoint configuration module (step source,
input artifact sources, materializer sources), which is not part of the
sources. -/
def STEP_SOURCE_OPTION : String := "step_source"

/-- Modelled from the spec: see STEP_SOURCE_OPTION. -/
def INPUT_ARTIFACT_SOURCES_OPTION : String := "input_artifact_sources"

/-- Modelled from the spec: see STEP_SOURCE_OPTION. -/
def MATERIALIZER_SOURCES_OPTION : String := "materializer_sources"

/-- Options from the step entrypoint configuration that change from step
to step (module constant STEP_SPECIFIC_STEP_ENTRYPOINT_OPTIONS). -/
def STEP_SPECIFIC_STEP_ENTRYPOINT_OPTIONS : List String :=
  [STEP_SOURCE_OPTION, INPUT_ARTIFACT_SOURCES_OPTION, MATERIALIZER_SOURCES_OPTION]

/-- Python `arg.startswith("--")`: the first two code points of the
string are both the dash character.  Stated over `String.data` (the code
point list), which matches Python string indexing semantics. -/
def startsWithMarker (s : String) : Bool :=
  s.data.take 2 == ['-', '-']

/-- Python `arg[2:]`: the string with its first two code points removed. -/
def optionName (s : String) : String :=
  String.mk (s.data.drop 2)

/-- The loop body of `get_fixed_step_args`, generalised over the volatile
option list (the Python source reads the module constant
STEP_SPECIFIC_STEP_ENTRYPOINT_OPTIONS; claims quantify over the set, so
the constant is a parameter here).  `step_args[i : i + 2]` at the suffix
`arg :: rest` is `arg :: rest.take 1`; `is_fixed == get_fixed` selects the
category. -/
def get_fixed_step_args_vol (vol : List String) : List String → Bool → List String
  | [], _ => []
  | arg :: rest, get_fixed =>
    if startsWithMarker arg then
      (if (!(vol.contains (optionName arg))) == get_fixed then arg :: rest.take 1 else [])
        ++ get_fixed_step_args_vol vol rest get_fixed
    else
      get_fixed_step_args_vol vol rest get_fixed

/-- `get_fixed_step_args(step_args, get_fixed)` from the source, with the
module constant for the volatile options. -/
def get_fixed_step_args (step_args : List String) (get_fixed : Bool) : List String :=
  get_fixed_step_args_vol STEP_SPECIFIC_STEP_ENTRYPOINT_OPTIONS step_args get_fixed

/-- `get_step_specific_args(step_args)` from the source: the codec with
`get_fixed=False`. -/
def get_step_specific_args (step_args : List String) : List String :=
  get_fixed_step_args step_args false

/-- The Argument Codec exactly as the specification words it (used only to
compare the code's behaviour against the spec): an element beginning with
the option marker is a key; the element immediately following it is its
value, consumed as a pair, so a value is never itself examined as a key;
a trailing key with no following value is dropped. -/
def spec_codec_partition (vol : List String) (get_fixed : Bool) : List String → List String
  | [] => []
  | [_] => []
  | k :: v :: rest =>
    if startsWithMarker k then
      (if (!(vol.contains (optionName k))) == get_fixed then [k, v] else [])
        ++ spec_codec_partition vol get_fixed rest
    else
      spec_codec_partition vol get_fixed (v :: rest)

/-- Canonically formed argument lists: a sequence of key and value pairs
(the key carries the marker, the value does not), optionally ending in a
single trailing key with no value. -/
def wellFormedArgs : List String → Bool
  | [] => true
  | [k] => startsWithMarker k
  | k :: v :: rest => startsWithMarker k && !(startsWithMarker v) && wellFormedArgs rest

/-! ## Launch Plan Builder

Embedding of `KubernetesOrchestratorEntrypointConfiguration.get_entrypoint_arguments`.
Steps are records carrying a name; the external per-step argument
producer (`_get_step_args`, which closes over the pb2 pipeline and run
name and calls the external step entrypoint configuration) is a function
parameter `f`.  Python dicts are insertion-ordered association lists.
-/

/-- Modelled from the spec: the run-name option imported from the
external Kubernetes step entrypoint configuration module (not part of
the sources); the spec's scenario spells it "--run_name". -/
def RUN_NAME_OPTION : String := "run_name"

/-- Module constant PIPELINE_NAME_OPTION. -/
def PIPELINE_NAME_OPTION : String := "pipeline_name"

/-- Module constant IMAGE_NAME_OPTION. -/
def IMAGE_NAME_OPTION : String := "image_name"

/-- Module constant NAMESPACE_OPTION. -/
def NAMESPACE_OPTION : String := "kubernetes_namespace"

/-- Module constant PIPELINE_CONFIG_OPTION. -/
def PIPELINE_CONFIG_OPTION : String := "pipeline_config"

/-- A ZenML step as the builder sees it: only its name is consulted. -/
structure BaseStep where
  name : String
deriving DecidableEq

/-- Modelled from the spec: the shared worker launch command returned by
the external KubernetesStepEntrypointConfiguration.get_entrypoint_command
(not part of the sources). -/
def step_entrypoint_command : List String :=
  ["python", "-m",
   "zenml.integrations.kubernetes.orchestrators.kubernetes_step_entrypoint"]

/-- The pipeline_config dict assembled at lines 176-182 of the source. -/
structure PipelineConfig where
  sorted_steps : List String
  step_command : List String
  fixed_step_args : List String
  step_specific_args : List (String × List String)
  step_dependencies : List (String × List String)
deriving DecidableEq

/-- Python dict assignment d[k] = v on an insertion-ordered association
list: replace the first entry with key k in place, else append. -/
def dictInsert : List (String × List String) → String → List String →
    List (String × List String)
  | [], k, v => [(k, v)]
  | q :: d, k, v => if q.1 == k then (k, v) :: d else q :: dictInsert d k v

/-- The dict comprehension at lines 170-173: for each step in order,
step.name maps to get_step_specific_args of the step argument list. -/
def step_specific_args_dict (f : BaseStep → List String) (steps : List BaseStep) :
    List (String × List String) :=
  steps.foldl (fun d s => dictInsert d s.name (get_step_specific_args (f s))) []

/-- A JSON string literal as json.dumps renders it: double-quoted, with
backslash and double-quote escaped (other escapes do not arise in the
claims). -/
def jsonStr (s : String) : String :=
  "\"" ++ s.data.foldl (fun acc c =>
    acc ++ (if c = '\\' then "\\\\" else if c = '"' then "\\\"" else String.mk [c])) ""
    ++ "\""

/-- A JSON array of strings, json.dumps default separators. -/
def jsonStrList (xs : List String) : String :=
  "[" ++ String.intercalate ", " (xs.map jsonStr) ++ "]"

/-- A JSON object mapping strings to string arrays. -/
def jsonStrListDict (d : List (String × List String)) : String :=
  "\x7b" ++
    String.intercalate ", " (d.map (fun q => jsonStr q.1 ++ ": " ++ jsonStrList q.2))
    ++ "\x7d"

/-- The two value shapes that occur in the pipeline_config document. -/
inductive JValue where
  | jstrList : List String → JValue
  | jdict : List (String × List String) → JValue
deriving DecidableEq

/-- Rendering of a document value. -/
def renderJValue : JValue → String
  | .jstrList xs => jsonStrList xs
  | .jdict d => jsonStrListDict d

/-- Rendering of a JSON object document with insertion-ordered fields,
json.dumps default separators. -/
def renderJDoc (doc : List (String × JValue)) : String :=
  "\x7b" ++
    String.intercalate ", " (doc.map (fun q => jsonStr q.1 ++ ": " ++ renderJValue q.2))
    ++ "\x7d"

/-- The pipeline_config dict as a JSON document: its fields in insertion
order, as passed to json.dumps at line 183. -/
def pipeline_config_doc (cfg : PipelineConfig) : List (String × JValue) :=
  [("sorted_steps", .jstrList cfg.sorted_steps),
   ("step_command", .jstrList cfg.step_command),
   ("fixed_step_args", .jstrList cfg.fixed_step_args),
   ("step_specific_args", .jdict cfg.step_specific_args),
   ("step_dependencies", .jdict cfg.step_dependencies)]

/-- json.dumps(pipeline_config). -/
def pipeline_config_json (cfg : PipelineConfig) : String :=
  renderJDoc (pipeline_config_doc cfg)

/-- Lines 163-183 of the source: step names, shared command, fixed args
taken from the first step only, per-step specific args, and the
dependency map passed through.  Only reached with a non-empty step list
(get_entrypoint_arguments guards it), so headD never takes its default
in reachable uses. -/
def build_pipeline_config (f : BaseStep → List String) (sorted_steps : List BaseStep)
    (step_dependencies : List (String × List String)) : PipelineConfig :=
  { sorted_steps := sorted_steps.map BaseStep.name
    step_command := step_entrypoint_command
    fixed_step_args := get_fixed_step_args (f (sorted_steps.headD ⟨""⟩)) true
    step_specific_args := step_specific_args_dict f sorted_steps
    step_dependencies := step_dependencies }

/-- get_entrypoint_arguments (lines 119-199).  Indexing sorted_steps[0]
raises IndexError on an empty list before any plan is assembled, embedded
as none; otherwise the coordinator argument list of line 186 is
returned. -/
def get_entrypoint_arguments (run_name pipeline_name image_name kubernetes_namespace : String)
    (sorted_steps : List BaseStep) (step_dependencies : List (String × List String))
    (f : BaseStep → List String) : Option (List String) :=
  match sorted_steps with
  | [] => none
  | _ :: _ =>
    some ["--" ++ RUN_NAME_OPTION, run_name,
          "--" ++ PIPELINE_NAME_OPTION, pipeline_name,
          "--" ++ IMAGE_NAME_OPTION, image_name,
          "--" ++ NAMESPACE_OPTION, kubernetes_namespace,
          "--" ++ PIPELINE_CONFIG_OPTION,
          pipeline_config_json (build_pipeline_config f sorted_steps step_dependencies)]

/-! ## GCP Artifact Store

Embedding of `GCPArtifactStore` over an explicit object-storage state:
objects are path/content pairs, directory markers a path list.  Methods
that can raise return an `Except` result paired with the storage state
they leave behind, so the failure path's effect on the state is visible.
-/

/-- The errors the claims mention: FileExistsError (AlreadyExists) from
the overwrite guards and FileNotFoundError (NotFound) from the backend. -/
inductive FSError where
  | fileExists : FSError
  | notFound : FSError
deriving DecidableEq

/-- The gcsfs-backed storage state. -/
structure GCSFileSystem where
  files : List (String × String)
  dirs : List String
deriving DecidableEq

/-- Content of the object at a path, if any. -/
def lookupFile : List (String × String) → String → Option String
  | [], _ => none
  | q :: rest, p => if q.1 == p then some q.2 else lookupFile rest p

/-- Object write: replace the content at the path in place, else append. -/
def setFile : List (String × String) → String → String → List (String × String)
  | [], p, c => [(p, c)]
  | q :: rest, p, c => if q.1 == p then (p, c) :: rest else q :: setFile rest p c

/-- Object delete. -/
def removeFile : List (String × String) → String → List (String × String)
  | [], _ => []
  | q :: rest, p => if q.1 == p then removeFile rest p else q :: removeFile rest p

/-- gcsfs `exists`: an object or a directory marker at the path. -/
def fsExists (fs : GCSFileSystem) (p : String) : Bool :=
  (lookupFile fs.files p).isSome || fs.dirs.contains p

/-- Backend-native copy (gcsfs `copy`): read the source — raising
FileNotFoundError if absent — and write its content to the destination. -/
def gcs_copy (fs : GCSFileSystem) (p1 p2 : String) : Except FSError GCSFileSystem :=
  match lookupFile fs.files p1 with
  | none => Except.error FSError.notFound
  | some c => Except.ok { fs with files := setFile fs.files p2 c }

/-- Backend-native move (gcsfs `rename`): read the source — raising
FileNotFoundError if absent — then delete it and write the destination. -/
def gcs_rename (fs : GCSFileSystem) (p1 p2 : String) : Except FSError GCSFileSystem :=
  match lookupFile fs.files p1 with
  | none => Except.error FSError.notFound
  | some c => Except.ok { fs with files := setFile (removeFile fs.files p1) p2 c }

/-- GCPArtifactStore.copyfile (lines 78-101): the overwrite guard raises
FileExistsError before the backend copy is attempted. -/
def copyfile (fs : GCSFileSystem) (src dst : String) (overwrite : Bool) :
    Except FSError Unit × GCSFileSystem :=
  if !overwrite && fsExists fs dst then (Except.error FSError.fileExists, fs)
  else
    match gcs_copy fs src dst with
    | Except.error e => (Except.error e, fs)
    | Except.ok fs2 => (Except.ok (), fs2)

/-- GCPArtifactStore.rename (lines 180-204): same overwrite guard, then
the backend move. -/
def rename (fs : GCSFileSystem) (src dst : String) (overwrite : Bool) :
    Except FSError Unit × GCSFileSystem :=
  if !overwrite && fsExists fs dst then (Except.error FSError.fileExists, fs)
  else
    match gcs_rename fs src dst with
    | Except.error e => (Except.error e, fs)
    | Except.ok fs2 => (Except.ok (), fs2)

/-- Split a character list at the slash separators. -/
def splitParts : List Char → List Char → List String
  | [], acc => [String.mk acc.reverse]
  | c :: rest, acc =>
    if c = '/' then String.mk acc.reverse :: splitParts rest []
    else splitParts rest (c :: acc)

/-- The non-empty slash-separated components of a path. -/
def pathParts (p : String) : List String :=
  (splitParts p.data []).filter (fun s => s ≠ "")

/-- The ancestor chain of a path, shortest ancestor first, the path
itself last. -/
def pathAncestors (p : String) : List String :=
  (List.range (pathParts p).length).map
    (fun i => String.intercalate "/" ((pathParts p).take (i + 1)))

/-- Add a directory marker unless it is already present. -/
def insertNew (l : List String) (x : String) : List String :=
  if l.contains x then l else l ++ [x]

/-- gcsfs `makedirs(path, exist_ok)`: create every missing level of the
ancestor chain; error only when the target already exists and exist_ok
is false. -/
def gcs_makedirs (fs : GCSFileSystem) (p : String) (exist_ok : Bool) :
    Except FSError GCSFileSystem :=
  if fs.dirs.contains p && !exist_ok then Except.error FSError.fileExists
  else Except.ok { fs with dirs := (pathAncestors p).foldl insertNew fs.dirs }

/-- GCPArtifactStore.makedirs (lines 154-162): always exist_ok=True. -/
def makedirs (fs : GCSFileSystem) (p : String) : Except FSError GCSFileSystem :=
  gcs_makedirs fs p true

theorem get_fixed_step_args_vol_nil (vol : List String) (gf : Bool) :
    get_fixed_step_args_vol vol [] gf = [] := rfl

theorem get_fixed_step_args_vol_cons (vol : List String) (gf : Bool) (arg : String)
    (rest : List String) :
    get_fixed_step_args_vol vol (arg :: rest) gf =
      (if startsWithMarker arg then
        (if (!(vol.contains (optionName arg))) == gf then arg :: rest.take 1 else []) else [])
        ++ get_fixed_step_args_vol vol rest gf := by
  by_cases h : startsWithMarker arg <;> simp [get_fixed_step_args_vol, h]

theorem get_fixed_step_args_vol_skip_value (vol : List String) (gf : Bool) (v : String)
    (rest : List String) (hv : startsWithMarker v = false) :
    get_fixed_step_args_vol vol (v :: rest) gf = get_fixed_step_args_vol vol rest gf := by
  simp [get_fixed_step_args_vol, hv]

theorem get_fixed_step_args_vol_pair (vol : List String) (gf : Bool) (k v : String)
    (rest : List String) (hk : startsWithMarker k = true) (hv : startsWithMarker v = false) :
    get_fixed_step_args_vol vol (k :: v :: rest) gf =
      (if (!(vol.contains (optionName k))) == gf then [k, v] else [])
        ++ get_fixed_step_args_vol vol rest gf := by
  rw [get_fixed_step_args_vol_cons, get_fixed_step_args_vol_skip_value vol gf v rest hv]
  simp [hk]


/-- Claim C1 is false on the code: on the argument list
["--a", "--b", "v"] the element "--b" stands in the value position of the
pair begun by "--a", yet the code classifies it as a key of its own and
consumes it a second time together with "v".  The specification's pairing
rule would instead consume "--a"/"--b" as one pair and never examine
"--b" as a key. -/
theorem marker_valued_element_reclassified_as_key :
    get_fixed_step_args_vol [] ["--a", "--b", "v"] true = ["--a", "--b", "--b", "v"] ∧
    spec_codec_partition [] true ["--a", "--b", "v"] = ["--a", "--b"] ∧
    get_fixed_step_args_vol [] ["--a", "--b", "v"] true ≠
      spec_codec_partition [] true ["--a", "--b", "v"] := by
  refine ⟨by rfl, by rfl, ?_⟩
  intro hcontra
  rw [show get_fixed_step_args_vol [] ["--a", "--b", "v"] true
        = ["--a", "--b", "--b", "v"] from rfl,
      show spec_codec_partition [] true ["--a", "--b", "v"] = ["--a", "--b"] from rfl] at hcontra
  simp at hcontra

/-- Claim C1 (amended): the codec classifies elements by their marker
alone, independent of position.  Every element of the argument list that
begins with "--" is consumed as a key together with the element
immediately following it (the slice step_args[i : i + 2]), and that slice
appears contiguously in the partition selected by the key's category —
including when the element stands in the value position of a preceding
pair, in which case it is consumed twice. -/
theorem marker_elements_always_consumed_as_keys (vol : List String) (gf : Bool)
    (args : List String) (i : Nat) (h : i < args.length)
    (hk : startsWithMarker (args.get ⟨i, h⟩) = true)
    (hc : (!(vol.contains (optionName (args.get ⟨i, h⟩)))) = gf) :
    ∃ l r, get_fixed_step_args_vol vol args gf = l ++ (args.drop i).take 2 ++ r := by
  induction args generalizing i with
  | nil => exact absurd h (by simp)
  | cons a rest ih =>
    cases i with
    | zero =>
      have ha : startsWithMarker a = true := hk
      have hca : (!(vol.contains (optionName a))) = gf := hc
      refine ⟨[], get_fixed_step_args_vol vol rest gf, ?_⟩
      rw [get_fixed_step_args_vol_cons, ha, hca]
      simp
    | succ j =>
      have hj : j < rest.length := by simpa using h
      obtain ⟨l, r, hlr⟩ := ih j hj hk hc
      rw [get_fixed_step_args_vol_cons, hlr]
      refine ⟨(if startsWithMarker a then
        (if (!(vol.contains (optionName a))) == gf then a :: rest.take 1 else [])
        else []) ++ l, r, ?_⟩
      simp

/-- Concrete instance of the amended claim C1: in ["--a", "--b", "v"] the
element at index 1 is "--b", which occupies a value position; it is still
consumed as the key of the slice ["--b", "v"]. -/
theorem marker_elements_always_consumed_as_keys_witness :
    startsWithMarker (List.get ["--a", "--b", "v"] ⟨1, by simp⟩) = true ∧
    ∃ l r, get_fixed_step_args_vol [] ["--a", "--b", "v"] true =
      l ++ ((["--a", "--b", "v"] : List String).drop 1).take 2 ++ r :=
  ⟨by rfl,
   marker_elements_always_consumed_as_keys [] true ["--a", "--b", "v"] 1 (by simp)
     (by rfl) (by rfl)⟩

/-- Claim C2 is false on the code: on the argument list ["--a"], whose
single element is a trailing unmatched key, the claim says the key
appears in neither partition, so the union of the two partitions would be
empty; the code instead emits the trailing key (truncated slice
step_args[i : i + 2] = ["--a"]) into the fixed partition, so the union is
["--a"]. -/
theorem trailing_key_appears_in_partition_union :
    get_fixed_step_args_vol [] ["--a"] true ++ get_fixed_step_args_vol [] ["--a"] false
      = ["--a"] ∧
    "--a" ∈ get_fixed_step_args_vol [] ["--a"] true := by
  constructor
  · rfl
  · rw [show get_fixed_step_args_vol [] ["--a"] true = ["--a"] from rfl]
    simp

/-- Claim C2 (amended): for every volatile option list and every
canonically formed argument list — key and value pairs whose values do
not themselves carry the option marker, optionally ending in a single
trailing key — the concatenation of the fixed partition and the
step-specific partition is a permutation (multiset equality) of the whole
input, with a trailing unmatched key included in the partition of its own
category rather than dropped. -/
theorem codec_partition_union_is_permutation (vol : List String) :
    ∀ args : List String, wellFormedArgs args = true →
      List.Perm
        (get_fixed_step_args_vol vol args true ++ get_fixed_step_args_vol vol args false)
        args
  | [], _ => by simp [get_fixed_step_args_vol]
  | [k], h => by
    have hk : startsWithMarker k = true := by simpa [wellFormedArgs] using h
    rw [get_fixed_step_args_vol_cons vol true k [],
        get_fixed_step_args_vol_cons vol false k [], hk]
    cases hcb : (!(vol.contains (optionName k))) with
    | true => exact List.Perm.refl [k]
    | false => exact List.Perm.refl [k]
  | k :: v :: rest, h => by
    obtain ⟨⟨hk, hv⟩, hrest⟩ :
        (startsWithMarker k = true ∧ startsWithMarker v = false)
          ∧ wellFormedArgs rest = true := by
      simpa [wellFormedArgs] using h
    have ih := codec_partition_union_is_permutation vol rest hrest
    rw [get_fixed_step_args_vol_pair vol true k v rest hk hv,
        get_fixed_step_args_vol_pair vol false k v rest hk hv]
    cases hcb : (!(vol.contains (optionName k))) with
    | true => exact (ih.cons v).cons k
    | false =>
      exact (List.perm_middle).trans (((List.perm_middle).trans (ih.cons v)).cons k)

/-- Concrete instance of the amended claim C2 on a canonically formed
list with one volatile option. -/
theorem codec_partition_union_is_permutation_witness :
    wellFormedArgs ["--run_name", "r1", "--step_source", "A.step"] = true ∧
    List.Perm
      (get_fixed_step_args_vol ["step_source"]
          ["--run_name", "r1", "--step_source", "A.step"] true
        ++ get_fixed_step_args_vol ["step_source"]
          ["--run_name", "r1", "--step_source", "A.step"] false)
      ["--run_name", "r1", "--step_source", "A.step"] :=
  ⟨by rfl,
   codec_partition_union_is_permutation ["step_source"]
     ["--run_name", "r1", "--step_source", "A.step"] (by rfl)⟩

/-- Claim C3 is false on the code in its second half: on the argument
list ["--some_arg"], whose single element is a trailing key with no
following value, the codec does not drop the key — the truncated slice
step_args[i : i + 2] = ["--some_arg"] is appended to the fixed partition,
so the trailing key is present there, not absent from both partitions. -/
theorem trailing_key_not_dropped :
    get_fixed_step_args ["--some_arg"] true = ["--some_arg"] ∧
    "--some_arg" ∈ get_fixed_step_args ["--some_arg"] true := by
  constructor
  · rfl
  · rw [show get_fixed_step_args ["--some_arg"] true = ["--some_arg"] from rfl]
    simp

/-- Claim C3 (amended): on every argument list ending in a key with no
following value the Argument Codec does not raise (it is a total
function), and the trailing key is not dropped: it is emitted, unpaired,
as the final element of the partition matching its own category. -/
theorem trailing_key_ends_matching_partition (vol : List String) (p : List String)
    (k : String) (hk : startsWithMarker k = true) :
    ∃ l, get_fixed_step_args_vol vol (p ++ [k]) (!(vol.contains (optionName k)))
          = l ++ [k] := by
  induction p with
  | nil =>
    refine ⟨[], ?_⟩
    rw [List.nil_append, get_fixed_step_args_vol_cons, hk]
    cases hcb : (!(vol.contains (optionName k))) with
    | true => rfl
    | false => rfl
  | cons a p ih =>
    obtain ⟨l, hl⟩ := ih
    rw [List.cons_append, get_fixed_step_args_vol_cons, hl]
    refine ⟨(if startsWithMarker a then
      (if (!(vol.contains (optionName a))) == (!(vol.contains (optionName k)))
        then a :: (p ++ [k]).take 1 else []) else []) ++ l, ?_⟩
    simp

/-- Concrete instance of the amended claim C3: the argument list
["--a", "v", "--b"] ends in the unmatched key "--b", which is emitted as
the last element of the fixed partition. -/
theorem trailing_key_ends_matching_partition_witness :
    startsWithMarker "--b" = true ∧
    ∃ l, get_fixed_step_args_vol [] (["--a", "v"] ++ ["--b"])
          (!(([] : List String).contains (optionName "--b"))) = l ++ ["--b"] :=
  ⟨by rfl, trailing_key_ends_matching_partition [] ["--a", "v"] "--b" (by rfl)⟩

theorem dictInsert_keys_toFinset (d : List (String × List String)) (k : String)
    (v : List String) :
    ((dictInsert d k v).map Prod.fst).toFinset = insert k (d.map Prod.fst).toFinset := by
  induction d with
  | nil => simp [dictInsert]
  | cons q d ih =>
    by_cases hq : q.1 == k
    · have hqe : q.1 = k := by simpa using hq
      simp [dictInsert, hq, hqe]
    · have hqe : (q.1 == k) = false := by simpa using hq
      simp [dictInsert, hqe, ih]
      exact Finset.Insert.comm q.1 k (d.map Prod.fst).toFinset

theorem step_specific_args_dict_keys_aux (f : BaseStep → List String)
    (steps : List BaseStep) :
    ∀ d : List (String × List String),
      ((steps.foldl (fun d s => dictInsert d s.name (get_step_specific_args (f s))) d).map
          Prod.fst).toFinset
        = (d.map Prod.fst).toFinset ∪ (steps.map BaseStep.name).toFinset := by
  induction steps with
  | nil => intro d; simp
  | cons s steps ih =>
    intro d
    rw [List.foldl_cons, ih, dictInsert_keys_toFinset]
    ext x
    simp [or_assoc]

theorem step_specific_args_dict_keys (f : BaseStep → List String) (steps : List BaseStep) :
    ((step_specific_args_dict f steps).map Prod.fst).toFinset
      = (steps.map BaseStep.name).toFinset := by
  rw [step_specific_args_dict, step_specific_args_dict_keys_aux]
  simp

/-- Claim C4: for every non-empty step list with a fully-referenced
dependency map, get_entrypoint_arguments succeeds and the launch plan it
embeds has a sorted_steps list as long as the input step list, and the
key set of step_specific_args equals the entry set of sorted_steps. -/
theorem launch_plan_counts_and_keys (run pn img ns : String) (steps : List BaseStep)
    (deps : List (String × List String)) (f : BaseStep → List String)
    (hne : steps ≠ [])
    (href : ∀ q ∈ deps, ∀ dep ∈ q.2, dep ∈ steps.map BaseStep.name) :
    (get_entrypoint_arguments run pn img ns steps deps f).isSome = true ∧
    (build_pipeline_config f steps deps).sorted_steps.length = steps.length ∧
    ((build_pipeline_config f steps deps).step_specific_args.map Prod.fst).toFinset
      = (build_pipeline_config f steps deps).sorted_steps.toFinset := by
  refine ⟨?_, ?_, ?_⟩
  · cases steps with
    | nil => exact absurd rfl hne
    | cons s ss => rfl
  · simp [build_pipeline_config]
  · show ((step_specific_args_dict f steps).map Prod.fst).toFinset
      = (steps.map BaseStep.name).toFinset
    exact step_specific_args_dict_keys f steps

/-- Concrete instance of claim C4: two steps A and B, B depending on A. -/
theorem launch_plan_counts_and_keys_witness :
    (([⟨"A"⟩, ⟨"B"⟩] : List BaseStep) ≠ []) ∧
    (∀ q ∈ [("B", ["A"])], ∀ dep ∈ q.2,
      dep ∈ ([⟨"A"⟩, ⟨"B"⟩] : List BaseStep).map BaseStep.name) ∧
    ((get_entrypoint_arguments "run1" "pipe" "img" "ns" [⟨"A"⟩, ⟨"B"⟩] [("B", ["A"])]
        (fun _ => [])).isSome = true ∧
     (build_pipeline_config (fun _ => []) [⟨"A"⟩, ⟨"B"⟩] [("B", ["A"])]).sorted_steps.length
        = ([⟨"A"⟩, ⟨"B"⟩] : List BaseStep).length ∧
     ((build_pipeline_config (fun _ => []) [⟨"A"⟩, ⟨"B"⟩]
          [("B", ["A"])]).step_specific_args.map Prod.fst).toFinset
        = (build_pipeline_config (fun _ => []) [⟨"A"⟩, ⟨"B"⟩]
            [("B", ["A"])]).sorted_steps.toFinset) :=
  ⟨by simp, by decide,
   launch_plan_counts_and_keys "run1" "pipe" "img" "ns" [⟨"A"⟩, ⟨"B"⟩] [("B", ["A"])]
     (fun _ => []) (by simp) (by decide)⟩

/-- Claim C5 is false on the code: with step list [A] and the dependency
map referencing the absent step "ghost", get_entrypoint_arguments
succeeds (no configuration error) and the dangling reference travels
into the plan's step_dependencies unchanged. -/
theorem dangling_dependency_not_reported :
    (get_entrypoint_arguments "run" "pipe" "img" "ns" [⟨"A"⟩] [("A", ["ghost"])]
        (fun _ => [])).isSome = true ∧
    (build_pipeline_config (fun _ => []) [⟨"A"⟩] [("A", ["ghost"])]).step_dependencies
      = [("A", ["ghost"])] ∧
    "ghost" ∉ ([⟨"A"⟩] : List BaseStep).map BaseStep.name := by
  refine ⟨rfl, rfl, ?_⟩
  decide

/-- Claim C5 (amended): the Launch Plan Builder performs no validation of
dependency references; for every non-empty step list it succeeds and the
dependency map — dangling references included — is passed through into
the plan's step_dependencies unchanged, neither reported as an error nor
dropped. -/
theorem dependency_map_passed_through_unvalidated (run pn img ns : String)
    (steps : List BaseStep) (deps : List (String × List String))
    (f : BaseStep → List String) (hne : steps ≠ []) :
    (get_entrypoint_arguments run pn img ns steps deps f).isSome = true ∧
    (build_pipeline_config f steps deps).step_dependencies = deps := by
  cases steps with
  | nil => exact absurd rfl hne
  | cons s ss => exact ⟨rfl, rfl⟩

/-- Concrete instance of the amended claim C5. -/
theorem dependency_map_passed_through_unvalidated_witness :
    (([⟨"A"⟩] : List BaseStep) ≠ []) ∧
    ((get_entrypoint_arguments "run" "pipe" "img" "ns" [⟨"A"⟩] [("A", ["ghost"])]
        (fun _ => [])).isSome = true ∧
     (build_pipeline_config (fun _ => []) [⟨"A"⟩] [("A", ["ghost"])]).step_dependencies
        = [("A", ["ghost"])]) :=
  ⟨by simp,
   dependency_map_passed_through_unvalidated "run" "pipe" "img" "ns" [⟨"A"⟩]
     [("A", ["ghost"])] (fun _ => []) (by simp)⟩

/-- Claim C6: called with an empty step list, the builder fails fast —
sorted_steps[0] raises IndexError before any plan is assembled (embedded
as none) — and never emits a launch plan, empty or otherwise. -/
theorem empty_step_list_fails_fast (run pn img ns : String)
    (deps : List (String × List String)) (f : BaseStep → List String) :
    get_entrypoint_arguments run pn img ns [] deps f = none := rfl

/-- Claim C8: for a non-empty step list the coordinator argument list is
exactly the run-name, pipeline-name, image-name and namespace flags, each
followed by its value, plus the single string-valued pipeline_config
option whose value is the JSON document with exactly the fields
sorted_steps, step_command, fixed_step_args, step_specific_args and
step_dependencies, in that order. -/
theorem coordinator_argument_shape (run pn img ns : String) (steps : List BaseStep)
    (deps : List (String × List String)) (f : BaseStep → List String)
    (hne : steps ≠ []) :
    get_entrypoint_arguments run pn img ns steps deps f =
      some ["--" ++ RUN_NAME_OPTION, run,
            "--" ++ PIPELINE_NAME_OPTION, pn,
            "--" ++ IMAGE_NAME_OPTION, img,
            "--" ++ NAMESPACE_OPTION, ns,
            "--" ++ PIPELINE_CONFIG_OPTION,
            pipeline_config_json (build_pipeline_config f steps deps)] ∧
    (pipeline_config_doc (build_pipeline_config f steps deps)).map Prod.fst
      = ["sorted_steps", "step_command", "fixed_step_args",
         "step_specific_args", "step_dependencies"] := by
  cases steps with
  | nil => exact absurd rfl hne
  | cons s ss => exact ⟨rfl, rfl⟩

/-- Concrete instance of claim C8. -/
theorem coordinator_argument_shape_witness :
    (([⟨"A"⟩] : List BaseStep) ≠ []) ∧
    (get_entrypoint_arguments "run1" "pipe" "img" "ns" [⟨"A"⟩] []
        (fun _ => ["--run_name", "run1"]) =
      some ["--" ++ RUN_NAME_OPTION, "run1",
            "--" ++ PIPELINE_NAME_OPTION, "pipe",
            "--" ++ IMAGE_NAME_OPTION, "img",
            "--" ++ NAMESPACE_OPTION, "ns",
            "--" ++ PIPELINE_CONFIG_OPTION,
            pipeline_config_json (build_pipeline_config
              (fun _ => ["--run_name", "run1"]) [⟨"A"⟩] [])] ∧
     (pipeline_config_doc (build_pipeline_config
         (fun _ => ["--run_name", "run1"]) [⟨"A"⟩] [])).map Prod.fst
        = ["sorted_steps", "step_command", "fixed_step_args",
           "step_specific_args", "step_dependencies"]) :=
  ⟨by simp,
   coordinator_argument_shape "run1" "pipe" "img" "ns" [⟨"A"⟩] []
     (fun _ => ["--run_name", "run1"]) (by simp)⟩

theorem lookupFile_setFile_self (files : List (String × String)) (p c : String) :
    lookupFile (setFile files p c) p = some c := by
  induction files with
  | nil => simp [setFile, lookupFile]
  | cons q rest ih =>
    by_cases hq : (q.1 == p) = true
    · simp [setFile, lookupFile, hq]
    · have hq2 : (q.1 == p) = false := by simpa using hq
      simp [setFile, lookupFile, hq2, ih]

/-- Claim C7: when the source object exists, copyfile with
overwrite=false raises FileExistsError whenever the destination exists at
call time, and copyfile with overwrite=true raises no such error and
leaves the destination's content equal to the source's content at call
time. -/
theorem copyfile_overwrite_semantics (fs : GCSFileSystem) (src dst c : String)
    (hsrc : lookupFile fs.files src = some c) :
    (fsExists fs dst = true →
      (copyfile fs src dst false).1 = Except.error FSError.fileExists) ∧
    (copyfile fs src dst true).1 = Except.ok () ∧
    lookupFile ((copyfile fs src dst true).2).files dst = some c := by
  refine ⟨?_, ?_, ?_⟩
  · intro hdst
    simp [copyfile, hdst]
  · simp [copyfile, gcs_copy, hsrc]
  · simp [copyfile, gcs_copy, hsrc, lookupFile_setFile_self]

/-- Concrete instance of claim C7. -/
theorem copyfile_overwrite_semantics_witness :
    lookupFile (GCSFileSystem.mk [("gs://b/src", "payload")] []).files "gs://b/src"
        = some "payload" ∧
    ((fsExists (GCSFileSystem.mk [("gs://b/src", "payload")] []) "gs://b/dst" = true →
      (copyfile (GCSFileSystem.mk [("gs://b/src", "payload")] []) "gs://b/src" "gs://b/dst"
          false).1 = Except.error FSError.fileExists) ∧
     (copyfile (GCSFileSystem.mk [("gs://b/src", "payload")] []) "gs://b/src" "gs://b/dst"
        true).1 = Except.ok () ∧
     lookupFile ((copyfile (GCSFileSystem.mk [("gs://b/src", "payload")] []) "gs://b/src"
        "gs://b/dst" true).2).files "gs://b/dst" = some "payload") :=
  ⟨by rfl,
   copyfile_overwrite_semantics (GCSFileSystem.mk [("gs://b/src", "payload")] [])
     "gs://b/src" "gs://b/dst" "payload" (by rfl)⟩

theorem insertNew_mem_of_mem (l : List String) (x y : String) (h : y ∈ l) :
    y ∈ insertNew l x := by
  unfold insertNew
  split
  · exact h
  · exact List.mem_append_left _ h

theorem mem_insertNew_self (l : List String) (x : String) : x ∈ insertNew l x := by
  unfold insertNew
  split
  · next hc => simpa using hc
  · exact List.mem_append_right _ (by simp)

theorem foldl_insertNew_mem (as : List String) (l : List String) (x : String)
    (h : x ∈ l) : x ∈ as.foldl insertNew l := by
  induction as generalizing l with
  | nil => exact h
  | cons a as ih => exact ih (insertNew l a) (insertNew_mem_of_mem l a x h)

theorem foldl_insertNew_mem_of_mem_arg (as : List String) (l : List String) (x : String)
    (h : x ∈ as) : x ∈ as.foldl insertNew l := by
  induction as generalizing l with
  | nil => exact absurd h (by simp)
  | cons a as ih =>
    rcases List.mem_cons.mp h with he | hm
    · subst he
      exact foldl_insertNew_mem as (insertNew l x) x (mem_insertNew_self l x)
    · exact ih (insertNew l a) hm

theorem foldl_insertNew_noop (as : List String) (l : List String)
    (h : ∀ a ∈ as, a ∈ l) : as.foldl insertNew l = l := by
  induction as with
  | nil => rfl
  | cons a as ih =>
    have ha : a ∈ l := h a (by simp)
    have hins : insertNew l a = l := by
      unfold insertNew
      rw [if_pos (by simpa using ha)]
    rw [List.foldl_cons, hins]
    exact ih (fun b hb => h b (List.mem_cons_of_mem a hb))

theorem insertNew_nodup (l : List String) (x : String) (h : l.Nodup) :
    (insertNew l x).Nodup := by
  unfold insertNew
  split
  · exact h
  · next hc =>
    refine List.Nodup.append h (by simp) ?_
    intro b hb hbx
    have hbe : b = x := by simpa using hbx
    subst hbe
    exact hc (by simpa using hb)

theorem foldl_insertNew_nodup (as : List String) (l : List String) (h : l.Nodup) :
    (as.foldl insertNew l).Nodup := by
  induction as generalizing l with
  | nil => exact h
  | cons a as ih => exact ih (insertNew l a) (insertNew_nodup l a h)

/-- Claim C9: makedirs is idempotent — the first call succeeds from any
state (exist_ok=True, including when the target already exists), the
second call on the same path succeeds, changes nothing, and creates no
duplicate directory entries. -/
theorem makedirs_idempotent (fs : GCSFileSystem) (p : String) (h : fs.dirs.Nodup) :
    ∃ fs1, makedirs fs p = Except.ok fs1 ∧ makedirs fs1 p = Except.ok fs1 ∧
      fs1.dirs.Nodup := by
  refine ⟨{ fs with dirs := (pathAncestors p).foldl insertNew fs.dirs }, ?_, ?_, ?_⟩
  · unfold makedirs gcs_makedirs
    simp
  · unfold makedirs gcs_makedirs
    simp only [Bool.not_true, Bool.and_false, Bool.false_eq_true, if_false]
    rw [foldl_insertNew_noop]
    intro a ha
    exact foldl_insertNew_mem_of_mem_arg (pathAncestors p) fs.dirs a ha
  · exact foldl_insertNew_nodup (pathAncestors p) fs.dirs h

/-- Concrete instance of claim C9, on a state already holding the target
directory. -/
theorem makedirs_idempotent_witness :
    (GCSFileSystem.mk [] ["gs:", "gs:/bucket"]).dirs.Nodup ∧
    ∃ fs1, makedirs (GCSFileSystem.mk [] ["gs:", "gs:/bucket"]) "gs://bucket"
        = Except.ok fs1 ∧
      makedirs fs1 "gs://bucket" = Except.ok fs1 ∧ fs1.dirs.Nodup :=
  ⟨by simp,
   makedirs_idempotent (GCSFileSystem.mk [] ["gs:", "gs:/bucket"]) "gs://bucket"
     (by simp)⟩

/-- Claim C10: whenever the overwrite guard of copyfile or rename fires
(destination exists, overwrite=false), the FileExistsError is raised
before any backend mutation is attempted, so the storage state on that
error is exactly the state at call time. -/
theorem overwrite_guard_raises_before_mutation (fs : GCSFileSystem) (src dst : String)
    (h : fsExists fs dst = true) :
    copyfile fs src dst false = (Except.error FSError.fileExists, fs) ∧
    rename fs src dst false = (Except.error FSError.fileExists, fs) := by
  constructor
  · simp [copyfile, h]
  · simp [rename, h]

/-- Concrete instance of claim C10. -/
theorem overwrite_guard_raises_before_mutation_witness :
    fsExists (GCSFileSystem.mk [("gs://b/dst", "old")] []) "gs://b/dst" = true ∧
    (copyfile (GCSFileSystem.mk [("gs://b/dst", "old")] []) "gs://b/src" "gs://b/dst" false
        = (Except.error FSError.fileExists, GCSFileSystem.mk [("gs://b/dst", "old")] []) ∧
     rename (GCSFileSystem.mk [("gs://b/dst", "old")] []) "gs://b/src" "gs://b/dst" false
        = (Except.error FSError.fileExists, GCSFileSystem.mk [("gs://b/dst", "old")] [])) :=
  ⟨by rfl,
   overwrite_guard_raises_before_mutation (GCSFileSystem.mk [("gs://b/dst", "old")] [])
     "gs://b/src" "gs://b/dst" (by rfl)⟩
